import Mathlib

set_option maxHeartbeats 1000000

-- ==========================================================================
-- Shallow embedding of package refresh (refresh.go).
--
-- Part 1: a sequential (single-caller) embedding.  Each Go function becomes
-- a Lean function; the package-level mutable state (the atomic.Value slot,
-- the invocation history of refreshFn) is threaded explicitly through a
-- `Refresher` record.  `time.Time` is embedded as `Int` with `0` playing
-- the role of the zero (sentinel) time; `time.Duration` is `Int`;
-- `time.Since val.when` at wall-clock instant `now` is `now - val.when`.
-- A Go `error` is `Option E` (`none` = nil).  A run-time panic (calling a
-- nil function value) is embedded as an `Option` result of `none`.
-- ==========================================================================

/-- Embeds the Go struct `value`: one published snapshot.  `refresh` embeds
the `sync.Once` done flag; `refreshStale` embeds the `uint32` CAS flag. -/
structure value (V E : Type) where
  val : V
  err : Option E
  when : Int
  refresh : Bool
  refreshStale : Nat
deriving DecidableEq, Repr

/-- Embeds the Go struct `Refresher`.  `val` is the current snapshot held by
the `atomic.Value`; `refreshFn` is the user-supplied function, `none`
embedding a nil Go function value.  To let one definition model compute
functions whose results change between invocations (closures over mutable
state, as in the repository's tests), the function takes the index of the
invocation and `calls` counts the invocations performed so far. -/
structure Refresher (V E : Type) where
  val : value V E
  maxAge : Int
  refreshFn : Option (Nat → V × Option E)
  staleWhileRefresh : Bool
  calls : Nat

/-- The zero `value`, as produced by Go's `new(value)`: zero value, nil
error, zero time, unused `sync.Once`, `refreshStale = 0`. -/
def value.sentinel (V E : Type) [Inhabited V] : value V E :=
  ⟨default, none, 0, false, 0⟩

/-- Embeds `New`.  The Go function panics when `maxAge <= 0`; the panic is
embedded as `Except.error` carrying the panic message.  Note that the Go
code performs no check at all on `refreshFn`. -/
def New (V E : Type) [Inhabited V] (maxAge : Int)
    (refreshFn : Option (Nat → V × Option E)) : Except String (Refresher V E) :=
  if maxAge ≤ 0 then
    Except.error ("refresh: maxAge must be positive duration")
  else
    Except.ok ⟨value.sentinel V E, maxAge, refreshFn, false, 0⟩

/-- Embeds `(*Refresher).SetStaleWhileRefresh`. -/
def Refresher.SetStaleWhileRefresh (r : Refresher V E) (v : Bool) :
    Refresher V E :=
  { r with staleWhileRefresh := v }

/-- Embeds `(*Refresher).loadFresh` run to completion by a single caller.
`val.refresh.Do` runs its closure exactly when the captured snapshot's Once
is unused (sequentially the captured snapshot is the current one); the
closure invokes `refreshFn` (a nil function value panics: result `none`)
and stores a wholly new snapshot `{newVal, err, now, sync.Once{}, 0}`.
The final re-read of `r.val` then yields that new snapshot. -/
def Refresher.loadFresh [Inhabited V] (r : Refresher V E) (now : Int) :
    Option ((V × Option E) × Refresher V E) :=
  if r.val.refresh then
    some ((r.val.val, r.val.err), r)
  else
    match r.refreshFn with
    | none => none
    | some f =>
      let ve := f r.calls
      let r' : Refresher V E :=
        { r with val := ⟨ve.1, ve.2, now, false, 0⟩, calls := r.calls + 1 }
      some ((r'.val.val, r'.val.err), r')

/-- Embeds `(*Refresher).loadStale` run to completion by a single caller.
The CAS on `val.refreshStale` fails when the flag is already nonzero, in
which case the stale pair is returned at once; otherwise the caller claims
the flag, invokes `refreshFn`, stores a wholly new snapshot and returns the
newly computed pair. -/
def Refresher.loadStale (r : Refresher V E) (now : Int) :
    Option ((V × Option E) × Refresher V E) :=
  if r.val.refreshStale ≠ 0 then
    some ((r.val.val, r.val.err), r)
  else
    match r.refreshFn with
    | none => none
    | some f =>
      let ve := f r.calls
      some ((ve.1, ve.2),
        { r with val := ⟨ve.1, ve.2, now, false, 0⟩, calls := r.calls + 1 })

/-- Embeds `(*Refresher).Load` at wall-clock instant `now`, with the
package-level test hook `testNeedsRefresh` passed explicitly (it is `false`
outside the repository's tests).  The switch mirrors the source: the test
hook first, then the first-load (zero time) case, then the freshness check
`time.Since(val.when) <= r.maxAge`, then the policy dispatch. -/
def Refresher.Load [Inhabited V] (r : Refresher V E) (now : Int)
    (testNeedsRefresh : Bool) : Option ((V × Option E) × Refresher V E) :=
  let val := r.val
  if testNeedsRefresh then r.loadFresh now
  else if val.when = 0 then r.loadFresh now
  else if now - val.when ≤ r.maxAge then some ((val.val, val.err), r)
  else if r.staleWhileRefresh then r.loadStale now
  else r.loadFresh now

/-- Runs a sequence of `Load` calls, each at its own wall-clock instant and
test-hook setting, threading the Refresher state; `none` as soon as some
call panics on a nil compute function. -/
def Refresher.runLoads [Inhabited V] (r : Refresher V E) :
    List (Int × Bool) → Option (Refresher V E)
  | [] => some r
  | (now, tnr) :: rest =>
    match r.Load now tnr with
    | none => none
    | some (_, r') => r'.runLoads rest

-- ==========================================================================
-- Part 2: a fine-grained interleaving embedding of the same code, for the
-- concurrency claims.  Several callers execute `Load` concurrently against
-- one shared `Refresher`.  Shared state: the heap of allocated snapshots
-- (publishing `r.val.Store(&value{...})` allocates a new heap cell, so a
-- snapshot is identified by its heap index), the index `cur` held by the
-- `atomic.Value`, the invocation counter of `refreshFn`, and the clock.
-- Each caller is a program counter plus the snapshot index it captured with
-- `r.val.Load()`.  Every step is one atomic action of one caller (or a
-- clock tick), matching the grain of the Go memory operations: the atomic
-- load, the CAS, entering or leaving the `sync.Once`, the atomic store.
-- An execution is a schedule, i.e. an arbitrary list of such actions.
-- ==========================================================================

namespace Conc

/-- A snapshot on the heap.  `refresh` is the `sync.Once` state (0 unused,
1 running, 2 done); `refreshStale` is the `uint32` CAS flag. -/
structure Snap (V E : Type) where
  val : V
  err : Option E
  when : Int
  refresh : Nat
  refreshStale : Nat
deriving DecidableEq, Repr

instance [Inhabited V] : Inhabited (Snap V E) :=
  ⟨⟨default, none, 0, 0, 0⟩⟩

/-- Program counter of one caller inside `Load`:
`start` — about to read `r.val` and dispatch;
`staleCAS` — in `loadStale`, about to CAS the captured snapshot's flag;
`staleCompute k` — won the CAS, invocation number `k` of `refreshFn` in
flight; `freshOnce` — in `loadFresh`, about to enter `val.refresh.Do`;
`freshCompute k` — inside the Once with invocation `k` in flight;
`freshSetDone` — about to mark the Once done after the store;
`freshReread` — about to re-read `r.val` after `Do` returned;
`finished res` — `Load` returned `res`. -/
inductive PC (V E : Type) where
  | start
  | staleCAS
  | staleCompute (k : Nat)
  | freshOnce
  | freshCompute (k : Nat)
  | freshSetDone
  | freshReread
  | finished (res : V × Option E)
deriving DecidableEq, Repr

/-- One caller: its program counter and the heap index of the snapshot it
captured with `val := r.val.Load()`. -/
structure Caller (V E : Type) where
  pc : PC V E
  captured : Nat
deriving DecidableEq, Repr

/-- The whole system: the shared `Refresher` state plus all callers.
`heap` holds every snapshot ever allocated; `cur` is the index stored in
the `atomic.Value`; `calls` counts started invocations of `refreshFn`;
`time` is the wall clock (`time.Now()` reads it, `time.Since w = time - w`). -/
structure Config (V E : Type) where
  heap : List (Snap V E)
  cur : Nat
  maxAge : Int
  refreshFn : Nat → V × Option E
  staleWhileRefresh : Bool
  testNeedsRefresh : Bool
  calls : Nat
  time : Int
  callers : List (Caller V E)

variable {V E : Type}

/-- Replace caller `i`'s state. -/
def Config.setCaller (c : Config V E) (i : Nat) (k : Caller V E) :
    Config V E :=
  { c with callers := c.callers.set i k }

/-- Advance caller `i` by one atomic action.  A caller that does not exist,
is blocked inside `sync.Once.Do` behind a running winner, or has finished,
does not move. -/
def stepCaller [Inhabited V] (c : Config V E) (i : Nat) : Config V E :=
  match c.callers.get? i with
  | none => c
  | some caller =>
    match caller.pc with
    | .start =>
      -- val := r.val.Load(); switch { ... }
      let s := c.heap.getD c.cur default
      if c.testNeedsRefresh then
        c.setCaller i ⟨.freshOnce, c.cur⟩
      else if s.when = 0 then
        c.setCaller i ⟨.freshOnce, c.cur⟩
      else if c.time - s.when ≤ c.maxAge then
        c.setCaller i ⟨.finished (s.val, s.err), c.cur⟩
      else if c.staleWhileRefresh then
        c.setCaller i ⟨.staleCAS, c.cur⟩
      else
        c.setCaller i ⟨.freshOnce, c.cur⟩
    | .staleCAS =>
      -- atomic.CompareAndSwapUint32(&val.refreshStale, 0, 1)
      let s := c.heap.getD caller.captured default
      if s.refreshStale = 0 then
        { c with
          heap := c.heap.set caller.captured { s with refreshStale := 1 },
          calls := c.calls + 1,
          callers := c.callers.set i ⟨.staleCompute c.calls, caller.captured⟩ }
      else
        c.setCaller i ⟨.finished (s.val, s.err), caller.captured⟩
    | .staleCompute k =>
      -- newVal, err := r.refreshFn(); r.val.Store(&value{...}); return
      let ve := c.refreshFn k
      { c with
        heap := c.heap ++ [⟨ve.1, ve.2, c.time, 0, 0⟩],
        cur := c.heap.length,
        callers := c.callers.set i ⟨.finished ve, caller.captured⟩ }
    | .freshOnce =>
      -- val.refresh.Do(...): first entrant runs the closure, later
      -- entrants block while it runs and skip it once it is done
      let s := c.heap.getD caller.captured default
      if s.refresh = 0 then
        { c with
          heap := c.heap.set caller.captured { s with refresh := 1 },
          calls := c.calls + 1,
          callers := c.callers.set i ⟨.freshCompute c.calls, caller.captured⟩ }
      else if s.refresh = 1 then
        c
      else
        c.setCaller i ⟨.freshReread, caller.captured⟩
    | .freshCompute k =>
      -- newVal, err := r.refreshFn(); r.val.Store(&value{...})
      let ve := c.refreshFn k
      { c with
        heap := c.heap ++ [⟨ve.1, ve.2, c.time, 0, 0⟩],
        cur := c.heap.length,
        callers := c.callers.set i ⟨.freshSetDone, caller.captured⟩ }
    | .freshSetDone =>
      -- sync.Once records completion when the closure returns
      let s := c.heap.getD caller.captured default
      { c with
        heap := c.heap.set caller.captured { s with refresh := 2 },
        callers := c.callers.set i ⟨.freshReread, caller.captured⟩ }
    | .freshReread =>
      -- val = r.val.Load(); return val.val, val.err
      let s := c.heap.getD c.cur default
      c.setCaller i ⟨.finished (s.val, s.err), caller.captured⟩
    | .finished _ => c

/-- One scheduled action: advance the clock or advance one caller. -/
inductive Act where
  | tick (d : Nat)
  | run (i : Nat)
deriving DecidableEq, Repr

/-- Apply one action. -/
def step [Inhabited V] (c : Config V E) : Act → Config V E
  | .tick d => { c with time := c.time + d }
  | .run i => stepCaller c i

/-- Run a whole schedule. -/
def exec [Inhabited V] (c : Config V E) (sched : List Act) : Config V E :=
  sched.foldl step c

/-- Did this caller's `Load` return? -/
def PC.isFinished : PC V E → Bool
  | .finished _ => true
  | _ => false

/-- Have all callers returned? -/
def Config.allFinished (c : Config V E) : Bool :=
  c.callers.all fun k => k.pc.isFinished

/-- Is this caller currently executing an invocation of `refreshFn`? -/
def PC.isCompute : PC V E → Bool
  | .staleCompute _ => true
  | .freshCompute _ => true
  | _ => false

end Conc

namespace Conc

variable {V E : Type}

-- --------------------------------------------------------------------------
-- A staleness episode under the stale-while-refresh policy: N callers have
-- all executed the dispatch switch of `Load` against the same stale current
-- snapshot and are about to attempt the CAS of `loadStale`.
-- --------------------------------------------------------------------------

/-- Initial condition of one stale-while-refresh episode: the current
snapshot exists, its claim flag is unclaimed, and every caller (at least
one) has captured it and sits at the CAS of `loadStale`. -/
def staleInit [Inhabited V] (c : Config V E) : Prop :=
  c.cur < c.heap.length ∧
  (c.heap.getD c.cur default).refreshStale = 0 ∧
  0 < c.callers.length ∧
  ∀ k ∈ c.callers, k = ⟨.staleCAS, c.cur⟩

instance [Inhabited V] [DecidableEq V] [DecidableEq E] (c : Config V E) :
    Decidable (staleInit c) := by
  unfold staleInit; infer_instance

/-- The stale pair: value and error of the episode's stale snapshot. -/
def stalePair [Inhabited V] (c₀ : Config V E) : V × Option E :=
  ((c₀.heap.getD c₀.cur default).val, (c₀.heap.getD c₀.cur default).err)

/-- The episode's heap after the winning CAS claimed the flag. -/
def staleHeap1 [Inhabited V] (c₀ : Config V E) : List (Snap V E) :=
  c₀.heap.set c₀.cur { c₀.heap.getD c₀.cur default with refreshStale := 1 }

/-- The snapshot the episode's winner publishes at clock value `t`. -/
def newSnap [Inhabited V] (c₀ : Config V E) (t : Int) : Snap V E :=
  ⟨(c₀.refreshFn c₀.calls).1, (c₀.refreshFn c₀.calls).2, t, 0, 0⟩

/-- Inductive invariant of a stale-while-refresh episode started from `c₀`:
either nobody has reached the CAS yet (phase 0), or a winner holds the
claim and is inside `refreshFn` while everyone else has either not CASed
yet or has lost and returned the stale pair (phase 1), or the winner has
published the new snapshot and returned it (phase 2). -/
def staleInv [Inhabited V] (c₀ c : Config V E) : Prop :=
  c.refreshFn = c₀.refreshFn ∧
  c.callers.length = c₀.callers.length ∧
  ((c.heap = c₀.heap ∧ c.cur = c₀.cur ∧ c.calls = c₀.calls ∧
      ∀ k ∈ c.callers, k = ⟨.staleCAS, c₀.cur⟩) ∨
   (∃ w, c.callers.get? w = some ⟨.staleCompute c₀.calls, c₀.cur⟩ ∧
      c.heap = staleHeap1 c₀ ∧ c.cur = c₀.cur ∧ c.calls = c₀.calls + 1 ∧
      ∀ i k, i ≠ w → c.callers.get? i = some k →
        k = ⟨.staleCAS, c₀.cur⟩ ∨ k = ⟨.finished (stalePair c₀), c₀.cur⟩) ∨
   (∃ w t, c.callers.get? w = some ⟨.finished (c₀.refreshFn c₀.calls), c₀.cur⟩ ∧
      c.heap = staleHeap1 c₀ ++ [newSnap c₀ t] ∧
      c.cur = c₀.heap.length ∧ c.calls = c₀.calls + 1 ∧
      ∀ i k, i ≠ w → c.callers.get? i = some k →
        k = ⟨.staleCAS, c₀.cur⟩ ∨ k = ⟨.finished (stalePair c₀), c₀.cur⟩))

-- --------------------------------------------------------------------------
-- A staleness episode under the blocking policy: N callers have all
-- executed the dispatch switch of `Load` against the same snapshot whose
-- `sync.Once` is unused and are about to enter `val.refresh.Do`.
-- --------------------------------------------------------------------------

/-- Initial condition of one blocking episode: the current snapshot exists,
its `sync.Once` is unused, and every caller (at least one) has captured it
and sits at the entry of `val.refresh.Do` in `loadFresh`. -/
def freshInit [Inhabited V] (c : Config V E) : Prop :=
  c.cur < c.heap.length ∧
  (c.heap.getD c.cur default).refresh = 0 ∧
  0 < c.callers.length ∧
  ∀ k ∈ c.callers, k = ⟨.freshOnce, c.cur⟩

instance [Inhabited V] [DecidableEq V] [DecidableEq E] (c : Config V E) :
    Decidable (freshInit c) := by
  unfold freshInit; infer_instance

/-- The episode's heap with the stale snapshot's `sync.Once` in state `st`. -/
def freshHeap [Inhabited V] (c₀ : Config V E) (st : Nat) : List (Snap V E) :=
  c₀.heap.set c₀.cur { c₀.heap.getD c₀.cur default with refresh := st }

/-- Inductive invariant of a blocking episode started from `c₀`:
phase 0 — nobody entered the Once; phase 1 — a winner entered the Once and
is inside `refreshFn`, everyone else is parked at the Once; phase 2 — the
winner has stored the new snapshot but not yet marked the Once done, so the
others are still parked; phase 3 — the Once is done and every caller is
parked no longer: it is at the Once entry, about to re-read, or finished
with the newly computed pair. -/
def freshInv [Inhabited V] (c₀ c : Config V E) : Prop :=
  c.refreshFn = c₀.refreshFn ∧
  c.callers.length = c₀.callers.length ∧
  ((c.heap = c₀.heap ∧ c.cur = c₀.cur ∧ c.calls = c₀.calls ∧
      ∀ k ∈ c.callers, k = ⟨.freshOnce, c₀.cur⟩) ∨
   (∃ w, c.callers.get? w = some ⟨.freshCompute c₀.calls, c₀.cur⟩ ∧
      c.heap = freshHeap c₀ 1 ∧ c.cur = c₀.cur ∧ c.calls = c₀.calls + 1 ∧
      ∀ i k, i ≠ w → c.callers.get? i = some k → k = ⟨.freshOnce, c₀.cur⟩) ∨
   (∃ w t, c.callers.get? w = some ⟨.freshSetDone, c₀.cur⟩ ∧
      c.heap = freshHeap c₀ 1 ++ [newSnap c₀ t] ∧
      c.cur = c₀.heap.length ∧ c.calls = c₀.calls + 1 ∧
      ∀ i k, i ≠ w → c.callers.get? i = some k → k = ⟨.freshOnce, c₀.cur⟩) ∨
   (∃ t, c.heap = freshHeap c₀ 2 ++ [newSnap c₀ t] ∧
      c.cur = c₀.heap.length ∧ c.calls = c₀.calls + 1 ∧
      ∀ i k, c.callers.get? i = some k → k.captured = c₀.cur ∧
        (k.pc = .freshOnce ∨ k.pc = .freshReread ∨
         k.pc = .finished (c₀.refreshFn c₀.calls))))

-- --------------------------------------------------------------------------
-- Concrete scenarios, used to evaluate the model on explicit inputs.
-- --------------------------------------------------------------------------

/-- A stale-while-refresh episode with three callers: stale snapshot
`(1, nil)` published at time 1, clock now 100, `maxAge` 10, compute
function returning `(k + 2, nil)` on its `k`-th invocation. -/
def exStaleCfg : Config Nat Nat :=
  { heap := [⟨1, none, 1, 0, 0⟩], cur := 0, maxAge := 10,
    refreshFn := fun k => (k + 2, none), staleWhileRefresh := true,
    testNeedsRefresh := false, calls := 0, time := 100,
    callers := [⟨.staleCAS, 0⟩, ⟨.staleCAS, 0⟩, ⟨.staleCAS, 0⟩] }

/-- A schedule for `exStaleCfg`: caller 1 wins the CAS, caller 0 loses,
caller 1 publishes and returns, caller 2 loses. -/
def exStaleSched : List Act := [.run 1, .run 0, .run 1, .run 2]

/-- A blocking episode with three callers on the same shared state. -/
def exFreshCfg : Config Nat Nat :=
  { exStaleCfg with
    staleWhileRefresh := false
    callers := [⟨.freshOnce, 0⟩, ⟨.freshOnce, 0⟩, ⟨.freshOnce, 0⟩] }

/-- A schedule for `exFreshCfg`: caller 1 enters the Once and computes
while callers 0 and 2 park; caller 1 publishes, marks the Once done and
re-reads; the others then pass the Once and re-read. -/
def exFreshSched : List Act :=
  [.run 1, .run 0, .run 2, .run 1, .run 0, .run 1, .run 1, .run 0, .run 0,
   .run 2, .run 2]

/-- A blocking scenario showing that a gate winner can return a pair it did
not compute: one stale snapshot `(1, nil)` and two callers still at
dispatch, with `refreshFn` returning `(10 + k, nil)`. -/
def exRereadCfg : Config Nat Nat :=
  { heap := [⟨1, none, 1, 0, 0⟩], cur := 0, maxAge := 10,
    refreshFn := fun k => (10 + k, none), staleWhileRefresh := false,
    testNeedsRefresh := false, calls := 0, time := 100,
    callers := [⟨.start, 0⟩, ⟨.start, 0⟩] }

/-- Schedule for `exRereadCfg`: caller 0 dispatches, wins the Once of the
stale snapshot, computes invocation 0 and publishes it, but before its
final re-read the clock advances and caller 1 runs a full second refresh
(invocation 1); only then does caller 0 re-read and return. -/
def exRereadSched : List Act :=
  [.run 0, .run 0, .run 0, .run 0, .tick 200, .run 1, .run 1, .run 1,
   .run 1, .run 1, .run 0]

/-- A config whose current snapshot's claim flag is already taken, with one
caller about to CAS it: the canonical losing caller. -/
def exLoserCfg : Config Nat Nat :=
  { heap := [⟨7, some 3, 1, 0, 1⟩], cur := 0, maxAge := 10,
    refreshFn := fun k => (k + 2, none), staleWhileRefresh := true,
    testNeedsRefresh := false, calls := 5, time := 100,
    callers := [⟨.staleCAS, 0⟩] }

/-- A fresh current snapshot (published at time 95, clock 100, maxAge 10)
with one caller at dispatch: the canonical cache hit. -/
def exHitCfg : Config Nat Nat :=
  { heap := [⟨7, some 3, 95, 0, 0⟩], cur := 0, maxAge := 10,
    refreshFn := fun k => (k + 2, none), staleWhileRefresh := false,
    testNeedsRefresh := false, calls := 5, time := 100,
    callers := [⟨.start, 0⟩] }

end Conc

-- ==========================================================================
-- Theorems
-- ==========================================================================

/-- C7: `New maxAge computeFn` panics with the construction-precondition
error for every `maxAge ≤ 0` (both zero and negative), and for every
positive `maxAge` it returns a ready Refresher whose current snapshot is
the never-computed sentinel: zero timestamp, zero value, no error, unused
gates, with the blocking policy and no invocation performed yet. -/
theorem New_maxAge_validation (V E : Type) [Inhabited V] (maxAge : Int)
    (fn : Option (Nat → V × Option E)) :
    (maxAge ≤ 0 →
      New V E maxAge fn =
        Except.error ("refresh: maxAge must be positive duration")) ∧
    (0 < maxAge →
      New V E maxAge fn =
        Except.ok ⟨⟨default, none, 0, false, 0⟩, maxAge, fn, false, 0⟩) := by
  refine ⟨fun h => ?_, fun h => ?_⟩
  · unfold New
    rw [if_pos h]
  · unfold New
    rw [if_neg (by omega)]
    rfl

/-- Witness for `New_maxAge_validation` at `maxAge = 0`, `maxAge = -1` and
`maxAge = 5`. -/
theorem New_maxAge_validation_witness :
    New Nat Nat 0 none =
      Except.error ("refresh: maxAge must be positive duration") ∧
    New Nat Nat (-1) none =
      Except.error ("refresh: maxAge must be positive duration") ∧
    New Nat Nat 5 none =
      Except.ok ⟨⟨0, none, 0, false, 0⟩, 5, none, false, 0⟩ :=
  ⟨(New_maxAge_validation Nat Nat 0 none).1 (by decide),
   (New_maxAge_validation Nat Nat (-1) none).1 (by decide),
   (New_maxAge_validation Nat Nat 5 none).2 (by decide)⟩

/-- C8 counterexample: `New` does not fail at construction time on a nil
compute function — with `maxAge = 5` and a nil `refreshFn` it returns a
ready Refresher instead of the construction-precondition error. -/
theorem New_nilFn_counterexample :
    New Nat Nat 5 none =
      Except.ok ⟨⟨0, none, 0, false, 0⟩, 5, none, false, 0⟩ := rfl

/-- C8 amended: `New` performs no validation of the compute function: for
every positive `maxAge` it accepts a nil `computeFn` and returns a ready
Refresher, and the nil function only causes a failure later, at `Load`
time, when a call needs to recompute and invokes it (Go's nil-function-
call panic, embedded as the `none` result). -/
theorem New_nilFn_deferred_failure (V E : Type) [Inhabited V] (maxAge : Int)
    (h : 0 < maxAge) (now : Int) (tnr : Bool) :
    ∃ r : Refresher V E, New V E maxAge none = Except.ok r ∧
      r.Load now tnr = none := by
  refine ⟨⟨⟨default, none, 0, false, 0⟩, maxAge, none, false, 0⟩, ?_, ?_⟩
  · unfold New
    rw [if_neg (by omega)]
    rfl
  · unfold Refresher.Load Refresher.loadFresh
    cases tnr <;> simp

/-- Witness for `New_nilFn_deferred_failure` at `maxAge = 5`, `now = 3`. -/
theorem New_nilFn_deferred_failure_witness :
    ∃ r : Refresher Nat Nat, New Nat Nat 5 none = Except.ok r ∧
      r.Load 3 false = none :=
  New_nilFn_deferred_failure Nat Nat 5 (by decide) 3 false

/-- C3: when the current snapshot is still the never-computed sentinel
(zero timestamp, unused run-once gate), `Load` dispatches to the blocking
`loadFresh` path regardless of the `staleWhileRefresh` policy and of the
test hook, invokes `computeFn` exactly once (the invocation counter grows
by one), publishes the computed pair with timestamp `now`, and returns
that freshly computed pair — never the sentinel's meaningless zero value. -/
theorem Load_firstLoad_blocking (V E : Type) [Inhabited V]
    (r : Refresher V E) (f : Nat → V × Option E) (now : Int) (tnr : Bool)
    (hfn : r.refreshFn = some f) (hwhen : r.val.when = 0)
    (honce : r.val.refresh = false) :
    r.Load now tnr = r.loadFresh now ∧
    r.Load now tnr =
      some (((f r.calls).1, (f r.calls).2),
        { r with
          val := ⟨(f r.calls).1, (f r.calls).2, now, false, 0⟩
          calls := r.calls + 1 }) := by
  have hdispatch : r.Load now tnr = r.loadFresh now := by
    unfold Refresher.Load
    cases tnr <;> simp [hwhen]
  refine ⟨hdispatch, ?_⟩
  rw [hdispatch]
  unfold Refresher.loadFresh
  rw [honce, hfn]
  simp

/-- Witness for `Load_firstLoad_blocking`: a freshly constructed Refresher
with the stale-while-refresh policy enabled still computes on first Load. -/
theorem Load_firstLoad_blocking_witness :
    (Refresher.Load (V := Nat) (E := Nat)
        ⟨⟨0, none, 0, false, 0⟩, 10, some (fun k => (k + 7, none)), true, 0⟩
        5 false) =
      some ((7, none), ⟨⟨7, none, 5, false, 0⟩, 10,
        some (fun k => (k + 7, none)), true, 1⟩) :=
  (Load_firstLoad_blocking Nat Nat
    ⟨⟨0, none, 0, false, 0⟩, 10, some (fun k => (k + 7, none)), true, 0⟩
    (fun k => (k + 7, none)) 5 false rfl rfl rfl).2

/-- C4: for a non-sentinel current snapshot with `now - timestamp ≤ maxAge`
`Load` returns exactly that snapshot's pair with the Refresher unchanged —
so `computeFn` is not invoked (this holds even for a nil `refreshFn`);
the snapshot only counts as stale when `now - timestamp` is strictly
greater than `maxAge` (a snapshot exactly `maxAge` old is still fresh), in
which case `Load` dispatches to `loadStale` or `loadFresh` by policy; and
in the interleaving model a cache hit completes in the single dispatch
step with no shared state touched — no blocking. -/
theorem Load_cacheHit_fresh (V E : Type) [Inhabited V] (r : Refresher V E)
    (now : Int) (hwhen : r.val.when ≠ 0) :
    (now - r.val.when ≤ r.maxAge →
      r.Load now false = some ((r.val.val, r.val.err), r)) ∧
    (r.maxAge < now - r.val.when →
      r.Load now false =
        if r.staleWhileRefresh then r.loadStale now else r.loadFresh now) ∧
    (∀ (c : Conc.Config V E) (i cap : Nat),
      c.callers.get? i = some ⟨.start, cap⟩ →
      c.testNeedsRefresh = false →
      (c.heap.getD c.cur default).when ≠ 0 →
      c.time - (c.heap.getD c.cur default).when ≤ c.maxAge →
      Conc.stepCaller c i =
        { c with
          callers := c.callers.set i
            ⟨.finished ((c.heap.getD c.cur default).val,
              (c.heap.getD c.cur default).err), c.cur⟩ }) := by
  refine ⟨fun h => ?_, fun h => ?_, fun c i cap hget htnr hw hage => ?_⟩
  · unfold Refresher.Load
    simp [hwhen, h]
  · unfold Refresher.Load
    rw [if_neg (by simp), if_neg hwhen, if_neg (by omega)]
  · unfold Conc.stepCaller
    rw [hget]
    simp only [htnr, Bool.false_eq_true, if_false, if_neg hw, if_pos hage]
    simp [Conc.Config.setCaller, htnr]

/-- Witness for `Load_cacheHit_fresh`: a snapshot aged 5 (and, for the
boundary, exactly `maxAge`) with `maxAge = 10`, plus the one-step cache
hit of `Conc.exHitCfg`. -/
theorem Load_cacheHit_fresh_witness :
    (Refresher.Load (V := Nat) (E := Nat)
        ⟨⟨7, some 3, 95, false, 0⟩, 10, none, false, 5⟩ 100 false) =
      some ((7, some 3), ⟨⟨7, some 3, 95, false, 0⟩, 10, none, false, 5⟩) ∧
    (Refresher.Load (V := Nat) (E := Nat)
        ⟨⟨7, some 3, 95, false, 0⟩, 10, none, false, 5⟩ 105 false) =
      some ((7, some 3), ⟨⟨7, some 3, 95, false, 0⟩, 10, none, false, 5⟩) ∧
    Conc.stepCaller Conc.exHitCfg 0 =
      { Conc.exHitCfg with
        callers := [⟨.finished (7, some 3), 0⟩] } :=
  ⟨(Load_cacheHit_fresh Nat Nat
      ⟨⟨7, some 3, 95, false, 0⟩, 10, none, false, 5⟩ 100 (by decide)).1
      (by decide),
   (Load_cacheHit_fresh Nat Nat
      ⟨⟨7, some 3, 95, false, 0⟩, 10, none, false, 5⟩ 105 (by decide)).1
      (by decide),
   by
    have h := (Load_cacheHit_fresh Nat Nat
      ⟨⟨7, some 3, 95, false, 0⟩, 10, none, false, 5⟩ 100 (by decide)).2.2
      Conc.exHitCfg 0 0 (by decide) (by decide) (by decide) (by decide)
    simpa [Conc.exHitCfg] using h⟩

/-- Output shape of one `Load` with a non-nil compute function: it either
returns the observed snapshot's pair leaving the Refresher untouched, or
performs a refresh, publishing the next invocation's output at timestamp
`now` and returning exactly that output. -/
theorem Load_output_shape {V E : Type} [Inhabited V] (r : Refresher V E)
    (f : Nat → V × Option E) (now : Int) (tnr : Bool)
    (hfn : r.refreshFn = some f) :
    r.Load now tnr = some ((r.val.val, r.val.err), r) ∨
    r.Load now tnr = some (f r.calls,
      { r with
        val := ⟨(f r.calls).1, (f r.calls).2, now, false, 0⟩
        calls := r.calls + 1 }) := by
  unfold Refresher.Load Refresher.loadFresh Refresher.loadStale
  rw [hfn]
  dsimp only
  split_ifs <;> first | (left; rfl) | (right; rfl)

/-- Case analysis of one `Load`: with a non-nil compute function, a
successful call either returns the observed snapshot's pair leaving the
Refresher untouched, or returns exactly the next invocation's output, with
that output published as the new snapshot at timestamp `now`. -/
theorem Load_result_cases {V E : Type} [Inhabited V] (r : Refresher V E)
    (f : Nat → V × Option E) (now : Int) (tnr : Bool) (v : V) (e : Option E)
    (r' : Refresher V E) (hfn : r.refreshFn = some f)
    (h : r.Load now tnr = some ((v, e), r')) :
    ((v, e) = (r.val.val, r.val.err) ∧ r' = r) ∨
    ((v, e) = f r.calls ∧
      r' = { r with
        val := ⟨(f r.calls).1, (f r.calls).2, now, false, 0⟩
        calls := r.calls + 1 }) := by
  rcases Load_output_shape r f now tnr hfn with h' | h'
  · rw [h'] at h
    simp only [Option.some.injEq, Prod.mk.injEq] at h
    obtain ⟨⟨h1, h2⟩, h3⟩ := h
    exact Or.inl ⟨by rw [h1, h2], h3.symm⟩
  · rw [h'] at h
    simp only [Option.some.injEq, Prod.mk.injEq] at h
    exact Or.inr ⟨h.1.symm, h.2.symm⟩

/-- Provenance invariant: along any sequence of `Load` calls the compute
function is preserved and the held snapshot is either still the sentinel
(no error, zero timestamp) or carries the output of some invocation of the
compute function. -/
theorem runLoads_snapshot_provenance {V E : Type} [Inhabited V]
    (f : Nat → V × Option E) (steps : List (Int × Bool))
    (r r' : Refresher V E) (hfn : r.refreshFn = some f)
    (hP : (r.val.err = none ∧ r.val.when = 0) ∨
      ∃ k, (r.val.val, r.val.err) = f k)
    (h : r.runLoads steps = some r') :
    r'.refreshFn = some f ∧
    ((r'.val.err = none ∧ r'.val.when = 0) ∨
      ∃ k, (r'.val.val, r'.val.err) = f k) := by
  induction steps generalizing r with
  | nil =>
    unfold Refresher.runLoads at h
    cases h
    exact ⟨hfn, hP⟩
  | cons s rest ih =>
    obtain ⟨now, tnr⟩ := s
    unfold Refresher.runLoads at h
    cases hload : r.Load now tnr with
    | none => rw [hload] at h; cases h
    | some res =>
      obtain ⟨⟨v, e⟩, r₁⟩ := res
      rw [hload] at h
      dsimp only at h
      rcases Load_result_cases r f now tnr v e r₁ hfn hload with ⟨_, hr⟩ | ⟨_, hr⟩
      · subst hr
        exact ih r₁ hfn hP h
      · subst hr
        refine ih _ ?_ (Or.inr ⟨r.calls, rfl⟩) h
        exact hfn

/-- C5: error semantics of `Load`.
First part (error publication and caching, all recomputing paths): when
`computeFn` fails, the refresh publishes exactly the returned
`(value, error)` pair with timestamp `now` and returns it — whether the
refresh happens on the first-load (sentinel) path, on the blocking stale
path, or as the stale-while-refresh claim winner — and every subsequent
`Load` within the next `maxAge` window returns that same pair with the
Refresher (invocation counter included) unchanged: the failure is cached
and not retried.
Second part (pure passthrough): a successful `Load` only ever returns the
pair of the snapshot it observed or the pair just produced by `computeFn`.
Third part (never fabricates): on any Refresher built by `New`, under
either policy chosen with `SetStaleWhileRefresh`, after any sequence of
`Load` calls, every error a further `Load` returns was returned by some
invocation of `computeFn` — nothing is wrapped, translated or invented. -/
theorem Load_error_passthrough_caching (V E : Type) [Inhabited V] :
    (∀ (r : Refresher V E) (f : Nat → V × Option E) (now : Int) (v : V)
        (ε : E),
      r.refreshFn = some f → f r.calls = (v, some ε) → now ≠ 0 →
      ((r.val.when = 0 ∧ r.val.refresh = false) ∨
       (r.val.when ≠ 0 ∧ r.maxAge < now - r.val.when ∧
         r.staleWhileRefresh = false ∧ r.val.refresh = false) ∨
       (r.val.when ≠ 0 ∧ r.maxAge < now - r.val.when ∧
         r.staleWhileRefresh = true ∧ r.val.refreshStale = 0)) →
      ∃ r', r.Load now false = some ((v, some ε), r') ∧
        r'.val = ⟨v, some ε, now, false, 0⟩ ∧ r'.calls = r.calls + 1 ∧
        ∀ now₂ : Int, now₂ - now ≤ r.maxAge →
          r'.Load now₂ false = some ((v, some ε), r')) ∧
    (∀ (r : Refresher V E) (f : Nat → V × Option E) (now : Int) (tnr : Bool)
        (v : V) (e : Option E) (r' : Refresher V E),
      r.refreshFn = some f → r.Load now tnr = some ((v, e), r') →
      (v, e) = (r.val.val, r.val.err) ∨ (v, e) = f r.calls) ∧
    (∀ (maxAge : Int) (f : Nat → V × Option E) (b : Bool)
        (r₀ : Refresher V E) (steps : List (Int × Bool))
        (r : Refresher V E) (now : Int) (tnr : Bool) (v : V) (ε : E)
        (r' : Refresher V E),
      New V E maxAge (some f) = Except.ok r₀ →
      (r₀.SetStaleWhileRefresh b).runLoads steps = some r →
      r.Load now tnr = some ((v, some ε), r') →
      ∃ k, f k = (v, some ε)) := by
  refine ⟨?_, ?_, ?_⟩
  · intro r f now v ε hfn hf hnow hdisp
    have hcache : ∀ now₂ : Int, now₂ - now ≤ r.maxAge →
        Refresher.Load
            { r with
              val := ⟨v, some ε, now, false, 0⟩
              calls := r.calls + 1 } now₂ false =
          some ((v, some ε),
            { r with
              val := ⟨v, some ε, now, false, 0⟩
              calls := r.calls + 1 }) := by
      intro now₂ hage
      unfold Refresher.Load
      rw [if_neg (by simp)]
      rw [if_neg (by simpa using hnow)]
      rw [if_pos (by simpa using hage)]
    rcases hdisp with ⟨hwhen, honce⟩ | ⟨hwhen, hstale, hpol, honce⟩ |
      ⟨hwhen, hstale, hpol, hflag⟩
    · -- first-load (sentinel) path: recompute through loadFresh
      refine ⟨_, ?_, rfl, rfl, hcache⟩
      unfold Refresher.Load Refresher.loadFresh
      rw [if_neg (by simp), if_pos hwhen, honce]
      rw [if_neg (by simp), hfn]
      simp [hf]
    · -- blocking stale path: recompute through loadFresh
      refine ⟨_, ?_, rfl, rfl, hcache⟩
      unfold Refresher.Load Refresher.loadFresh
      rw [if_neg (by simp), if_neg hwhen, if_neg (by omega), hpol]
      rw [if_neg (by simp), honce]
      rw [if_neg (by simp), hfn]
      simp [hf]
    · -- stale-while-refresh path: recompute as the CAS claim winner
      refine ⟨_, ?_, rfl, rfl, hcache⟩
      unfold Refresher.Load Refresher.loadStale
      rw [if_neg (by simp), if_neg hwhen, if_neg (by omega), hpol]
      rw [if_pos rfl, hflag]
      rw [if_neg (by simp), hfn]
      simp [hf]
  · intro r f now tnr v e r' hfn h
    rcases Load_result_cases r f now tnr v e r' hfn h with ⟨hve, _⟩ | ⟨hve, _⟩
    · exact Or.inl hve
    · exact Or.inr hve
  · intro maxAge f b r₀ steps r now tnr v ε r' hnew hrun hload
    have hr₀ : r₀ = ⟨value.sentinel V E, maxAge, some f, false, 0⟩ := by
      unfold New at hnew
      split_ifs at hnew
      cases hnew
      rfl
    have hprov := runLoads_snapshot_provenance f steps
      (r₀.SetStaleWhileRefresh b) r
      (by rw [hr₀]; rfl) (by rw [hr₀]; exact Or.inl ⟨rfl, rfl⟩) hrun
    rcases Load_result_cases r f now tnr v (some ε) r' hprov.1 hload with
      ⟨hve, _⟩ | ⟨hve, _⟩
    · rcases hprov.2 with ⟨herr, _⟩ | ⟨k, hk⟩
      · rw [herr] at hve
        simp at hve
      · exact ⟨k, by rw [← hk, ← hve]⟩
    · exact ⟨r.calls, hve.symm⟩

/-- Witness for `Load_error_passthrough_caching`: a compute function that
fails with error 9.  The failure is published and cached on the
first-load path (with stale-while-refresh enabled), on the
stale-while-refresh claim-winner path, and on the blocking stale path;
the passthrough disjunction holds at a concrete refresh; and after a
stale-while-refresh run built by `New` and `SetStaleWhileRefresh true`,
the returned error comes from the compute function. -/
theorem Load_error_passthrough_caching_witness :
    (∃ r' : Refresher Nat Nat,
      Refresher.Load
          ⟨⟨0, none, 0, false, 0⟩, 10, some (fun k => (k + 3, some 9)),
            true, 0⟩ 5 false = some ((3, some 9), r') ∧
        r'.val = ⟨3, some 9, 5, false, 0⟩ ∧
        r'.Load 7 false = some ((3, some 9), r')) ∧
    (∃ r' : Refresher Nat Nat,
      Refresher.Load
          ⟨⟨1, none, 50, false, 0⟩, 10, some (fun k => (k + 3, some 9)),
            true, 0⟩ 100 false = some ((3, some 9), r') ∧
        r'.val = ⟨3, some 9, 100, false, 0⟩ ∧
        r'.Load 105 false = some ((3, some 9), r')) ∧
    (∃ r' : Refresher Nat Nat,
      Refresher.Load
          ⟨⟨1, none, 50, false, 0⟩, 10, some (fun k => (k + 3, some 9)),
            false, 0⟩ 100 false = some ((3, some 9), r') ∧
        r'.val = ⟨3, some 9, 100, false, 0⟩ ∧
        r'.Load 105 false = some ((3, some 9), r')) ∧
    ((3, some 9) = ((1 : Nat), (none : Option Nat)) ∨
      ((3 : Nat), (some 9 : Option Nat)) = (0 + 3, some 9)) ∧
    (∃ k, (fun j => (j + 3, some (9 : Nat))) k = ((4 : Nat), some 9)) := by
  refine ⟨?_, ?_, ?_, ?_, ?_⟩
  · obtain ⟨r', h1, h2, h3, h4⟩ :=
      (Load_error_passthrough_caching Nat Nat).1
        ⟨⟨0, none, 0, false, 0⟩, 10, some (fun k => (k + 3, some 9)),
          true, 0⟩
        (fun k => (k + 3, some 9)) 5 3 9 rfl rfl (by decide)
        (Or.inl ⟨rfl, rfl⟩)
    exact ⟨r', h1, h2, h4 7 (by decide)⟩
  · obtain ⟨r', h1, h2, h3, h4⟩ :=
      (Load_error_passthrough_caching Nat Nat).1
        ⟨⟨1, none, 50, false, 0⟩, 10, some (fun k => (k + 3, some 9)),
          true, 0⟩
        (fun k => (k + 3, some 9)) 100 3 9 rfl rfl (by decide)
        (Or.inr (Or.inr ⟨by decide, by decide, rfl, rfl⟩))
    exact ⟨r', h1, h2, h4 105 (by decide)⟩
  · obtain ⟨r', h1, h2, h3, h4⟩ :=
      (Load_error_passthrough_caching Nat Nat).1
        ⟨⟨1, none, 50, false, 0⟩, 10, some (fun k => (k + 3, some 9)),
          false, 0⟩
        (fun k => (k + 3, some 9)) 100 3 9 rfl rfl (by decide)
        (Or.inr (Or.inl ⟨by decide, by decide, rfl, rfl⟩))
    exact ⟨r', h1, h2, h4 105 (by decide)⟩
  · exact (Load_error_passthrough_caching Nat Nat).2.1
      ⟨⟨1, none, 50, false, 0⟩, 10, some (fun k => (k + 3, some 9)),
        false, 0⟩
      (fun k => (k + 3, some 9)) 100 false 3 (some 9)
      ⟨⟨3, some 9, 100, false, 0⟩, 10, some (fun k => (k + 3, some 9)),
        false, 1⟩ rfl rfl
  · exact (Load_error_passthrough_caching Nat Nat).2.2 10
      (fun k => (k + 3, some 9)) true
      ⟨⟨0, none, 0, false, 0⟩, 10, some (fun k => (k + 3, some 9)),
        false, 0⟩
      [(5, false), (100, false)]
      ⟨⟨4, some 9, 100, false, 0⟩, 10, some (fun k => (k + 3, some 9)),
        true, 2⟩
      105 false 4 9
      ⟨⟨4, some 9, 100, false, 0⟩, 10, some (fun k => (k + 3, some 9)),
        true, 2⟩ rfl rfl rfl

/-- Index bound extracted from a successful list lookup. -/
theorem get?_lt_length {α : Type} {l : List α} {n : Nat} {a : α}
    (h : l.get? n = some a) : n < l.length := by
  rcases List.get?_eq_some.mp h with ⟨hlt, _⟩
  exact hlt

/-- C1: behaviour of `loadStale` at a stale snapshot, caller by caller.
A caller whose CAS on the captured snapshot's claim flag fails returns
that snapshot's value/error in that same single step — no waiting, no
other shared state touched, `computeFn` not invoked.  A caller whose CAS
succeeds becomes the unique claimant (the invocation counter grows by
one), and its next own step synchronously runs `computeFn`, publishes the
new snapshot `(value, error, now)` as current, and returns the newly
computed pair. -/
theorem loadStale_winner_loser (V E : Type) [Inhabited V]
    (c : Conc.Config V E) (i : Nat) (caller : Conc.Caller V E)
    (s : Conc.Snap V E)
    (hget : c.callers.get? i = some caller)
    (hpc : caller.pc = .staleCAS)
    (hsnap : c.heap.get? caller.captured = some s) :
    (s.refreshStale ≠ 0 →
      Conc.stepCaller c i =
        { c with
          callers := c.callers.set i
            ⟨.finished (s.val, s.err), caller.captured⟩ }) ∧
    (s.refreshStale = 0 →
      (Conc.stepCaller c i).callers.get? i =
          some ⟨.staleCompute c.calls, caller.captured⟩ ∧
      (Conc.stepCaller c i).calls = c.calls + 1 ∧
      (Conc.stepCaller (Conc.stepCaller c i) i).callers.get? i =
          some ⟨.finished (c.refreshFn c.calls), caller.captured⟩ ∧
      (Conc.stepCaller (Conc.stepCaller c i) i).cur =
          (Conc.stepCaller c i).heap.length ∧
      (Conc.stepCaller (Conc.stepCaller c i) i).heap.get?
          (Conc.stepCaller (Conc.stepCaller c i) i).cur =
        some ⟨(c.refreshFn c.calls).1, (c.refreshFn c.calls).2,
          c.time, 0, 0⟩) := by
  obtain ⟨pc, cap⟩ := caller
  dsimp only at hpc hsnap
  subst hpc
  have hi : i < c.callers.length := get?_lt_length hget
  have hgetD : c.heap.getD cap default = s := by
    rw [List.getD_eq_getD_get?, hsnap]
    rfl
  constructor
  · intro hflag
    unfold Conc.stepCaller
    rw [hget]
    dsimp only
    rw [hgetD, if_neg hflag]
    rfl
  · intro hflag
    have hc1 : Conc.stepCaller c i =
        { c with
          heap := c.heap.set cap { s with refreshStale := 1 }
          calls := c.calls + 1
          callers := c.callers.set i ⟨.staleCompute c.calls, cap⟩ } := by
      unfold Conc.stepCaller
      rw [hget]
      dsimp only
      rw [hgetD, if_pos hflag]
    have hc1get : (Conc.stepCaller c i).callers.get? i =
        some ⟨.staleCompute c.calls, cap⟩ := by
      rw [hc1]
      exact List.get?_set_eq_of_lt _ hi
    refine ⟨hc1get, by rw [hc1], ?_, ?_, ?_⟩
    · rw [Conc.stepCaller, hc1get]
      dsimp only
      rw [hc1]
      dsimp only
      rw [List.get?_set_eq_of_lt]
      simpa using hi
    · rw [Conc.stepCaller, hc1get]
    · rw [Conc.stepCaller, hc1get]
      dsimp only
      rw [hc1]
      dsimp only
      exact List.get?_concat_length _ _

/-- Witness for `loadStale_winner_loser`: the loser of `Conc.exLoserCfg`
returns the stale pair `(7, some 3)` in one step; the winner of
`Conc.exStaleCfg` computes `(2, nil)`, publishes it as current and
returns it. -/
theorem loadStale_winner_loser_witness :
    Conc.stepCaller Conc.exLoserCfg 0 =
      { Conc.exLoserCfg with
        callers := [⟨.finished (7, some 3), 0⟩] } ∧
    ((Conc.stepCaller (Conc.stepCaller Conc.exStaleCfg 0) 0).callers.get? 0 =
        some ⟨.finished (2, none), 0⟩ ∧
      (Conc.stepCaller (Conc.stepCaller Conc.exStaleCfg 0) 0).heap.get?
          (Conc.stepCaller (Conc.stepCaller Conc.exStaleCfg 0) 0).cur =
        some ⟨2, none, 100, 0, 0⟩) := by
  constructor
  · exact (loadStale_winner_loser Nat Nat Conc.exLoserCfg 0
      ⟨.staleCAS, 0⟩ ⟨7, some 3, 1, 0, 1⟩ rfl rfl rfl).1 (by decide)
  · have h := (loadStale_winner_loser Nat Nat Conc.exStaleCfg 0
      ⟨.staleCAS, 0⟩ ⟨1, none, 1, 0, 0⟩ rfl rfl rfl).2 (by decide)
    exact ⟨h.2.2.1, h.2.2.2.2⟩

/-- C9: on the blocking path the returned pair is read from whichever
snapshot is current after the run-once gate completes.  First part: a
caller at the final re-read returns, in one step, the value/error of the
snapshot currently stored in the `atomic.Value` — whatever it is, not
necessarily the one this caller published.  Second part, on the concrete
execution `Conc.exRereadCfg` / `Conc.exRereadSched`: caller 0 runs
invocation 0 of `computeFn` (output `(10, nil)`, published at time 100 as
heap cell 1), yet its `Load` returns `(11, nil)`, the pair of the newer
snapshot published by caller 1's later refresh and current at caller 0's
re-read. -/
theorem loadFresh_reread_current (V E : Type) [Inhabited V] :
    (∀ (c : Conc.Config V E) (i : Nat) (caller : Conc.Caller V E)
        (s : Conc.Snap V E),
      c.callers.get? i = some caller → caller.pc = .freshReread →
      c.heap.get? c.cur = some s →
      (Conc.stepCaller c i).callers.get? i =
        some ⟨.finished (s.val, s.err), caller.captured⟩) ∧
    ((Conc.exec Conc.exRereadCfg (Conc.exRereadSched.take 2)).callers.get? 0
        = some ⟨.freshCompute 0, 0⟩ ∧
      Conc.exRereadCfg.refreshFn 0 = (10, none) ∧
      (Conc.exec Conc.exRereadCfg Conc.exRereadSched).heap.get? 1 =
        some ⟨10, none, 100, 2, 0⟩ ∧
      (Conc.exec Conc.exRereadCfg Conc.exRereadSched).callers.get? 0 =
        some ⟨.finished (11, none), 0⟩) := by
  constructor
  · intro c i caller s hget hpc hsnap
    obtain ⟨pc, cap⟩ := caller
    dsimp only at hpc
    subst hpc
    have hi : i < c.callers.length := get?_lt_length hget
    have hgetD : c.heap.getD c.cur default = s := by
      rw [List.getD_eq_getD_get?, hsnap]
      rfl
    unfold Conc.stepCaller
    rw [hget]
    dsimp only
    rw [hgetD]
    unfold Conc.Config.setCaller
    dsimp only
    exact List.get?_set_eq_of_lt _ hi
  · exact ⟨by decide, by decide, by decide, by decide⟩

/-- Witness for `loadFresh_reread_current`: after ten actions of
`Conc.exRereadSched` caller 0 sits at the re-read with the newer snapshot
`(11, nil)` current; its final step returns exactly that pair. -/
theorem loadFresh_reread_current_witness :
    (Conc.stepCaller
        (Conc.exec Conc.exRereadCfg (Conc.exRereadSched.take 10))
        0).callers.get? 0 =
      some ⟨.finished (11, none), 0⟩ :=
  (loadFresh_reread_current Nat Nat).1
    (Conc.exec Conc.exRereadCfg (Conc.exRereadSched.take 10)) 0
    ⟨.freshReread, 0⟩ ⟨11, none, 300, 0, 0⟩ (by decide) rfl (by decide)

/-- Shape of the heap after one caller step: unchanged, one snapshot's
claim flag updated, one snapshot's Once state updated, or a wholly new
snapshot appended (a publication). -/
theorem stepCaller_heap_cases {V E : Type} [Inhabited V]
    (c : Conc.Config V E) (i : Nat) :
    (Conc.stepCaller c i).heap = c.heap ∨
    (∃ j st, (Conc.stepCaller c i).heap =
      c.heap.set j { c.heap.getD j default with refreshStale := st }) ∨
    (∃ j st, (Conc.stepCaller c i).heap =
      c.heap.set j { c.heap.getD j default with refresh := st }) ∨
    (∃ sn, (Conc.stepCaller c i).heap = c.heap ++ [sn]) := by
  unfold Conc.stepCaller
  rcases hc : c.callers.get? i with _ | ⟨pc, cap⟩
  · exact Or.inl rfl
  · cases pc with
    | start =>
      dsimp only
      split_ifs <;> exact Or.inl rfl
    | staleCAS =>
      dsimp only
      split_ifs
      · exact Or.inr (Or.inl ⟨cap, 1, rfl⟩)
      · exact Or.inl rfl
    | staleCompute k =>
      exact Or.inr (Or.inr (Or.inr ⟨_, rfl⟩))
    | freshOnce =>
      dsimp only
      split_ifs
      · exact Or.inr (Or.inr (Or.inl ⟨cap, 1, rfl⟩))
      · exact Or.inl rfl
      · exact Or.inl rfl
    | freshCompute k =>
      exact Or.inr (Or.inr (Or.inr ⟨_, rfl⟩))
    | freshSetDone =>
      exact Or.inr (Or.inr (Or.inl ⟨cap, 2, rfl⟩))
    | freshReread =>
      exact Or.inl rfl
    | finished res =>
      exact Or.inl rfl

/-- C10: snapshot immutability and publication freshness.
First part: `New` stores a fresh sentinel snapshot — zero value, no
error, zero timestamp, unused run-once gate, claim flag 0.
Second part: no action (caller step or clock tick) ever changes the
value, error, or timestamp of an already-allocated snapshot; only the two
coordination flags of a snapshot can move.
Third part: whenever a step changes `cur` it publishes a wholly new
snapshot — the new current is appended at the end of the heap with an
unused `sync.Once`, claim flag 0 and the publication instant as
timestamp, and every previously allocated snapshot stays in place. -/
theorem snapshot_immutability_publication (V E : Type) [Inhabited V] :
    (∀ (maxAge : Int) (fn : Option (Nat → V × Option E))
        (r : Refresher V E),
      New V E maxAge fn = Except.ok r →
      r.val = ⟨default, none, 0, false, 0⟩) ∧
    (∀ (c : Conc.Config V E) (a : Conc.Act) (k : Nat) (s : Conc.Snap V E),
      c.heap.get? k = some s →
      ∃ s', (Conc.step c a).heap.get? k = some s' ∧
        s'.val = s.val ∧ s'.err = s.err ∧ s'.when = s.when) ∧
    (∀ (c : Conc.Config V E) (i : Nat),
      (Conc.stepCaller c i).cur ≠ c.cur →
      ∃ v e, (Conc.stepCaller c i).heap = c.heap ++ [⟨v, e, c.time, 0, 0⟩] ∧
        (Conc.stepCaller c i).cur = c.heap.length ∧
        (Conc.stepCaller c i).heap.get? (Conc.stepCaller c i).cur =
          some ⟨v, e, c.time, 0, 0⟩) := by
  refine ⟨?_, ?_, ?_⟩
  · intro maxAge fn r hnew
    unfold New at hnew
    split_ifs at hnew
    cases hnew
    rfl
  · intro c a k s h
    have hk : k < c.heap.length := get?_lt_length h
    cases a with
    | tick d => exact ⟨s, h, rfl, rfl, rfl⟩
    | run i =>
      show ∃ s', (Conc.stepCaller c i).heap.get? k = some s' ∧ _
      rcases stepCaller_heap_cases c i with hcase | ⟨j, st, hcase⟩ |
        ⟨j, st, hcase⟩ | ⟨sn, hcase⟩
      · exact ⟨s, by rw [hcase]; exact h, rfl, rfl, rfl⟩
      · rw [hcase]
        by_cases hkj : j = k
        · subst hkj
          have hgetD : c.heap.getD j default = s := by
            rw [List.getD_eq_getD_get?, h]
            rfl
          rw [hgetD]
          exact ⟨_, List.get?_set_eq_of_lt _ hk, rfl, rfl, rfl⟩
        · exact ⟨s, by rw [List.get?_set_ne _ _ hkj]; exact h, rfl, rfl, rfl⟩
      · rw [hcase]
        by_cases hkj : j = k
        · subst hkj
          have hgetD : c.heap.getD j default = s := by
            rw [List.getD_eq_getD_get?, h]
            rfl
          rw [hgetD]
          exact ⟨_, List.get?_set_eq_of_lt _ hk, rfl, rfl, rfl⟩
        · exact ⟨s, by rw [List.get?_set_ne _ _ hkj]; exact h, rfl, rfl, rfl⟩
      · rw [hcase]
        exact ⟨s, by rw [List.get?_append hk]; exact h, rfl, rfl, rfl⟩
  · intro c i
    unfold Conc.stepCaller
    rcases hc : c.callers.get? i with _ | ⟨pc, cap⟩
    · intro hne
      exact absurd rfl hne
    · cases pc with
      | start =>
        dsimp only
        split_ifs <;> exact fun hne => absurd rfl hne
      | staleCAS =>
        dsimp only
        split_ifs <;> exact fun hne => absurd rfl hne
      | staleCompute k =>
        intro hne
        refine ⟨_, _, rfl, rfl, ?_⟩
        exact List.get?_concat_length _ _
      | freshOnce =>
        dsimp only
        split_ifs <;> exact fun hne => absurd rfl hne
      | freshCompute k =>
        intro hne
        refine ⟨_, _, rfl, rfl, ?_⟩
        exact List.get?_concat_length _ _
      | freshSetDone =>
        exact fun hne => absurd rfl hne
      | freshReread =>
        exact fun hne => absurd rfl hne
      | finished res =>
        exact fun hne => absurd rfl hne

/-- Witness for `snapshot_immutability_publication`: the sentinel stored
by `New`, the preservation of snapshot 0 of `Conc.exStaleCfg` across the
winning CAS step, and the fresh-gated publication performed by the
winner's compute step. -/
theorem snapshot_immutability_publication_witness :
    ((⟨⟨0, none, 0, false, 0⟩, 5, none, false, 0⟩ : Refresher Nat Nat).val =
      ⟨0, none, 0, false, 0⟩) ∧
    (∃ s', (Conc.step Conc.exStaleCfg (Conc.Act.run 0)).heap.get? 0 =
      some s' ∧ s'.val = 1 ∧ s'.err = none ∧ s'.when = 1) ∧
    (∃ v e, (Conc.stepCaller (Conc.stepCaller Conc.exStaleCfg 0) 0).heap =
        (Conc.stepCaller Conc.exStaleCfg 0).heap ++ [⟨v, e, 100, 0, 0⟩] ∧
      (Conc.stepCaller (Conc.stepCaller Conc.exStaleCfg 0) 0).cur =
        (Conc.stepCaller Conc.exStaleCfg 0).heap.length ∧
      (Conc.stepCaller (Conc.stepCaller Conc.exStaleCfg 0) 0).heap.get?
          (Conc.stepCaller (Conc.stepCaller Conc.exStaleCfg 0) 0).cur =
        some ⟨v, e, 100, 0, 0⟩) :=
  ⟨(snapshot_immutability_publication Nat Nat).1 5 none
      ⟨⟨0, none, 0, false, 0⟩, 5, none, false, 0⟩ rfl,
   (snapshot_immutability_publication Nat Nat).2.1 Conc.exStaleCfg
      (Conc.Act.run 0) 0 ⟨1, none, 1, 0, 0⟩ (by decide),
   (snapshot_immutability_publication Nat Nat).2.2
      (Conc.stepCaller Conc.exStaleCfg 0) 0 (by decide)⟩

/-- A missing caller does not move. -/
theorem stepCaller_none {V E : Type} [Inhabited V] (c : Conc.Config V E)
    (i : Nat) (h : c.callers.get? i = none) : Conc.stepCaller c i = c := by
  unfold Conc.stepCaller
  rw [h]

/-- A finished caller does not move. -/
theorem stepCaller_finished {V E : Type} [Inhabited V] (c : Conc.Config V E)
    (i cap : Nat) (res : V × Option E)
    (h : c.callers.get? i = some ⟨.finished res, cap⟩) :
    Conc.stepCaller c i = c := by
  unfold Conc.stepCaller
  rw [h]

/-- The CAS of `loadStale` when the claim flag is still free: the caller
claims it and proceeds to the computation. -/
theorem stepCaller_staleCAS_win {V E : Type} [Inhabited V]
    (c : Conc.Config V E) (i cap : Nat)
    (h : c.callers.get? i = some ⟨.staleCAS, cap⟩)
    (hflag : (c.heap.getD cap default).refreshStale = 0) :
    Conc.stepCaller c i =
      { c with
        heap := c.heap.set cap
          { c.heap.getD cap default with refreshStale := 1 }
        calls := c.calls + 1
        callers := c.callers.set i ⟨.staleCompute c.calls, cap⟩ } := by
  unfold Conc.stepCaller
  rw [h]
  dsimp only
  rw [if_pos hflag]

/-- The CAS of `loadStale` when the claim flag is already taken: the
caller returns the captured snapshot's pair at once. -/
theorem stepCaller_staleCAS_lose {V E : Type} [Inhabited V]
    (c : Conc.Config V E) (i cap : Nat)
    (h : c.callers.get? i = some ⟨.staleCAS, cap⟩)
    (hflag : (c.heap.getD cap default).refreshStale ≠ 0) :
    Conc.stepCaller c i =
      c.setCaller i ⟨.finished ((c.heap.getD cap default).val,
        (c.heap.getD cap default).err), cap⟩ := by
  unfold Conc.stepCaller
  rw [h]
  dsimp only
  rw [if_neg hflag]

/-- The compute-and-publish step of the `loadStale` winner. -/
theorem stepCaller_staleCompute {V E : Type} [Inhabited V]
    (c : Conc.Config V E) (i cap k : Nat)
    (h : c.callers.get? i = some ⟨.staleCompute k, cap⟩) :
    Conc.stepCaller c i =
      { c with
        heap := c.heap ++ [⟨(c.refreshFn k).1, (c.refreshFn k).2,
          c.time, 0, 0⟩]
        cur := c.heap.length
        callers := c.callers.set i ⟨.finished (c.refreshFn k), cap⟩ } := by
  unfold Conc.stepCaller
  rw [h]

/-- Entering `val.refresh.Do` on an unused Once: the caller starts the
computation. -/
theorem stepCaller_freshOnce_enter {V E : Type} [Inhabited V]
    (c : Conc.Config V E) (i cap : Nat)
    (h : c.callers.get? i = some ⟨.freshOnce, cap⟩)
    (honce : (c.heap.getD cap default).refresh = 0) :
    Conc.stepCaller c i =
      { c with
        heap := c.heap.set cap { c.heap.getD cap default with refresh := 1 }
        calls := c.calls + 1
        callers := c.callers.set i ⟨.freshCompute c.calls, cap⟩ } := by
  unfold Conc.stepCaller
  rw [h]
  dsimp only
  rw [if_pos honce]

/-- A caller parked at a running Once does not move. -/
theorem stepCaller_freshOnce_blocked {V E : Type} [Inhabited V]
    (c : Conc.Config V E) (i cap : Nat)
    (h : c.callers.get? i = some ⟨.freshOnce, cap⟩)
    (honce : (c.heap.getD cap default).refresh = 1) :
    Conc.stepCaller c i = c := by
  unfold Conc.stepCaller
  rw [h]
  dsimp only
  rw [if_neg (by omega), if_pos honce]

/-- Passing a completed Once: the caller goes on to the final re-read. -/
theorem stepCaller_freshOnce_done {V E : Type} [Inhabited V]
    (c : Conc.Config V E) (i cap : Nat)
    (h : c.callers.get? i = some ⟨.freshOnce, cap⟩)
    (honce : (c.heap.getD cap default).refresh = 2) :
    Conc.stepCaller c i = c.setCaller i ⟨.freshReread, cap⟩ := by
  unfold Conc.stepCaller
  rw [h]
  dsimp only
  rw [if_neg (by omega), if_neg (by omega)]

/-- The compute-and-publish step of the Once winner in `loadFresh`. -/
theorem stepCaller_freshCompute {V E : Type} [Inhabited V]
    (c : Conc.Config V E) (i cap k : Nat)
    (h : c.callers.get? i = some ⟨.freshCompute k, cap⟩) :
    Conc.stepCaller c i =
      { c with
        heap := c.heap ++ [⟨(c.refreshFn k).1, (c.refreshFn k).2,
          c.time, 0, 0⟩]
        cur := c.heap.length
        callers := c.callers.set i ⟨.freshSetDone, cap⟩ } := by
  unfold Conc.stepCaller
  rw [h]

/-- Marking the Once done after the closure returned. -/
theorem stepCaller_freshSetDone {V E : Type} [Inhabited V]
    (c : Conc.Config V E) (i cap : Nat)
    (h : c.callers.get? i = some ⟨.freshSetDone, cap⟩) :
    Conc.stepCaller c i =
      { c with
        heap := c.heap.set cap { c.heap.getD cap default with refresh := 2 }
        callers := c.callers.set i ⟨.freshReread, cap⟩ } := by
  unfold Conc.stepCaller
  rw [h]

/-- The final re-read of `loadFresh`: return the current snapshot's pair. -/
theorem stepCaller_freshReread {V E : Type} [Inhabited V]
    (c : Conc.Config V E) (i cap : Nat)
    (h : c.callers.get? i = some ⟨.freshReread, cap⟩) :
    Conc.stepCaller c i =
      c.setCaller i ⟨.finished ((c.heap.getD c.cur default).val,
        (c.heap.getD c.cur default).err), cap⟩ := by
  unfold Conc.stepCaller
  rw [h]

/-- Reading the episode's snapshot after the winning CAS: only the claim
flag changed. -/
theorem getD_staleHeap1 {V E : Type} [Inhabited V] (c₀ : Conc.Config V E)
    (hlt : c₀.cur < c₀.heap.length) :
    (Conc.staleHeap1 c₀).getD c₀.cur default =
      { c₀.heap.getD c₀.cur default with refreshStale := 1 } := by
  unfold Conc.staleHeap1
  rw [List.getD_eq_getD_get?, List.get?_set_eq_of_lt _ hlt]
  rfl

/-- Reading an existing index is unaffected by an appended snapshot. -/
theorem getD_append_left {V E : Type} [Inhabited V]
    (l l' : List (Conc.Snap V E)) (n : Nat) (h : n < l.length) :
    (l ++ l').getD n default = l.getD n default := by
  rw [List.getD_eq_getD_get?, List.get?_append h, List.getD_eq_getD_get?]

/-- Reading the snapshot just appended at the end of the heap. -/
theorem getD_append_last {V E : Type} [Inhabited V]
    (l : List (Conc.Snap V E)) (sn : Conc.Snap V E) :
    (l ++ [sn]).getD l.length default = sn := by
  rw [List.getD_eq_getD_get?, List.get?_concat_length]
  rfl

/-- The invariant of a stale-while-refresh episode holds initially. -/
theorem staleInv_init {V E : Type} [Inhabited V] (c₀ : Conc.Config V E)
    (h : Conc.staleInit c₀) : Conc.staleInv c₀ c₀ := by
  obtain ⟨_, _, _, hall⟩ := h
  exact ⟨rfl, rfl, Or.inl ⟨rfl, rfl, rfl, hall⟩⟩

/-- The invariant of a stale-while-refresh episode is preserved by every
action. -/
theorem staleInv_step {V E : Type} [Inhabited V] (c₀ c : Conc.Config V E)
    (h₀ : Conc.staleInit c₀) (hinv : Conc.staleInv c₀ c) (a : Conc.Act) :
    Conc.staleInv c₀ (Conc.step c a) := by
  obtain ⟨hlt, hflag0, hpos, hall₀⟩ := h₀
  obtain ⟨hfn, hlen, hphase⟩ := hinv
  cases a with
  | tick d => exact ⟨hfn, hlen, hphase⟩
  | run i =>
    show Conc.staleInv c₀ (Conc.stepCaller c i)
    rcases hget : c.callers.get? i with _ | caller
    · rw [stepCaller_none c i hget]
      exact ⟨hfn, hlen, hphase⟩
    · rcases hphase with ⟨hheap, hcur, hcalls, hall⟩ |
        ⟨w, hw, hheap, hcur, hcalls, hoth⟩ |
        ⟨w, t, hw, hheap, hcur, hcalls, hoth⟩
      · -- phase 0: the acting caller performs the winning CAS
        have hcaller : caller = ⟨.staleCAS, c₀.cur⟩ :=
          hall _ (List.get?_mem hget)
        subst hcaller
        have hflag : (c.heap.getD c₀.cur default).refreshStale = 0 := by
          rw [hheap]
          exact hflag0
        have hstep := stepCaller_staleCAS_win c i c₀.cur hget hflag
        rw [hstep]
        refine ⟨hfn, by simpa using hlen, Or.inr (Or.inl ⟨i, ?_, ?_, ?_, ?_, ?_⟩)⟩
        · dsimp only
          rw [hcalls]
          exact List.get?_set_eq_of_lt _ (get?_lt_length hget)
        · dsimp only
          rw [hheap]
          rfl
        · exact hcur
        · dsimp only
          rw [hcalls]
        · intro i' k hne hget'
          dsimp only at hget'
          rw [List.get?_set_ne _ _ (Ne.symm hne)] at hget'
          exact Or.inl (hall _ (List.get?_mem hget'))
      · -- phase 1: winner computing, others CAS-losing or already done
        by_cases hiw : i = w
        · subst hiw
          rw [hget] at hw
          have hcaller : caller = ⟨.staleCompute c₀.calls, c₀.cur⟩ :=
            Option.some.inj hw
          subst hcaller
          have hstep := stepCaller_staleCompute c i c₀.cur c₀.calls hget
          rw [hstep]
          refine ⟨hfn, by simpa using hlen,
            Or.inr (Or.inr ⟨i, c.time, ?_, ?_, ?_, ?_, ?_⟩)⟩
          · dsimp only
            rw [hfn]
            exact List.get?_set_eq_of_lt _ (get?_lt_length hget)
          · dsimp only
            rw [hheap, hfn]
            rfl
          · dsimp only
            rw [hheap]
            simp [Conc.staleHeap1]
          · dsimp only
            rw [hcalls]
          · intro i' k hne hget'
            dsimp only at hget'
            rw [List.get?_set_ne _ _ (Ne.symm hne)] at hget'
            exact hoth i' k hne hget'
        · rcases hoth i caller hiw hget with hcaller | hcaller
          · subst hcaller
            have hflag : (c.heap.getD c₀.cur default).refreshStale ≠ 0 := by
              rw [hheap, getD_staleHeap1 c₀ hlt]
              simp
            have hstep := stepCaller_staleCAS_lose c i c₀.cur hget hflag
            rw [hstep]
            have hpair : ((c.heap.getD c₀.cur default).val,
                (c.heap.getD c₀.cur default).err) = Conc.stalePair c₀ := by
              rw [hheap, getD_staleHeap1 c₀ hlt]
              rfl
            refine ⟨hfn, by simpa [Conc.Config.setCaller] using hlen,
              Or.inr (Or.inl ⟨w, ?_, hheap, hcur, hcalls, ?_⟩)⟩
            · unfold Conc.Config.setCaller
              dsimp only
              rw [List.get?_set_ne _ _ hiw]
              exact hw
            · intro i' k hne hget'
              unfold Conc.Config.setCaller at hget'
              dsimp only at hget'
              by_cases hii : i = i'
              · subst hii
                rw [List.get?_set_eq_of_lt _ (get?_lt_length hget)] at hget'
                cases Option.some.inj hget'
                rw [hpair]
                exact Or.inr rfl
              · rw [List.get?_set_ne _ _ hii] at hget'
                exact hoth i' k hne hget'
          · subst hcaller
            rw [stepCaller_finished c i c₀.cur _ hget]
            exact ⟨hfn, hlen, Or.inr (Or.inl ⟨w, hw, hheap, hcur, hcalls, hoth⟩)⟩
      · -- phase 2: winner done, stragglers CAS-lose against the claimed flag
        by_cases hiw : i = w
        · subst hiw
          rw [hget] at hw
          have hcaller : caller = ⟨.finished (c₀.refreshFn c₀.calls), c₀.cur⟩ :=
            Option.some.inj hw
          subst hcaller
          rw [stepCaller_finished c i c₀.cur _ hget]
          exact ⟨hfn, hlen, Or.inr (Or.inr ⟨i, t, hget, hheap, hcur, hcalls, hoth⟩)⟩
        · rcases hoth i caller hiw hget with hcaller | hcaller
          · subst hcaller
            have hflag : (c.heap.getD c₀.cur default).refreshStale ≠ 0 := by
              rw [hheap,
                getD_append_left (Conc.staleHeap1 c₀) _ c₀.cur
                  (by simpa [Conc.staleHeap1] using hlt),
                getD_staleHeap1 c₀ hlt]
              simp
            have hstep := stepCaller_staleCAS_lose c i c₀.cur hget hflag
            rw [hstep]
            have hpair : ((c.heap.getD c₀.cur default).val,
                (c.heap.getD c₀.cur default).err) = Conc.stalePair c₀ := by
              rw [hheap,
                getD_append_left (Conc.staleHeap1 c₀) _ c₀.cur
                  (by simpa [Conc.staleHeap1] using hlt),
                getD_staleHeap1 c₀ hlt]
              rfl
            refine ⟨hfn, by simpa [Conc.Config.setCaller] using hlen,
              Or.inr (Or.inr ⟨w, t, ?_, hheap, hcur, hcalls, ?_⟩)⟩
            · unfold Conc.Config.setCaller
              dsimp only
              rw [List.get?_set_ne _ _ hiw]
              exact hw
            · intro i' k hne hget'
              unfold Conc.Config.setCaller at hget'
              dsimp only at hget'
              by_cases hii : i = i'
              · subst hii
                rw [List.get?_set_eq_of_lt _ (get?_lt_length hget)] at hget'
                cases Option.some.inj hget'
                rw [hpair]
                exact Or.inr rfl
              · rw [List.get?_set_ne _ _ hii] at hget'
                exact hoth i' k hne hget'
          · subst hcaller
            rw [stepCaller_finished c i c₀.cur _ hget]
            exact ⟨hfn, hlen, Or.inr (Or.inr ⟨w, t, hw, hheap, hcur, hcalls, hoth⟩)⟩

/-- The invariant of a stale-while-refresh episode holds along every
schedule. -/
theorem staleInv_exec {V E : Type} [Inhabited V] (c₀ : Conc.Config V E)
    (h₀ : Conc.staleInit c₀) (sched : List Conc.Act) :
    Conc.staleInv c₀ (Conc.exec c₀ sched) := by
  suffices h : ∀ (c : Conc.Config V E), Conc.staleInv c₀ c →
      Conc.staleInv c₀ (Conc.exec c sched) from
    h c₀ (staleInv_init c₀ h₀)
  induction sched with
  | nil => exact fun c hc => hc
  | cons a rest ih =>
    intro c hc
    exact ih _ (staleInv_step c₀ c h₀ hc a)

/-- C6: a whole stale-while-refresh staleness episode.  From any state in
which N ≥ 1 concurrent callers have all observed the same stale snapshot
(they sit at the CAS of `loadStale`, the snapshot's claim flag still
free), along every interleaving: `computeFn` is started at most once
(first part); no two callers are ever inside `computeFn` at the same time
(second part); and once every caller has returned, `computeFn` was
invoked exactly once, exactly one caller returned the newly computed
pair, and all remaining N−1 callers returned the prior stale
value/error (third part). -/
theorem staleWhileRefresh_episode (V E : Type) [Inhabited V]
    (c₀ : Conc.Config V E) (h₀ : Conc.staleInit c₀) :
    (∀ sched : List Conc.Act,
      (Conc.exec c₀ sched).calls ≤ c₀.calls + 1) ∧
    (∀ (sched : List Conc.Act) (i₁ i₂ : Nat) (k₁ k₂ : Conc.Caller V E),
      (Conc.exec c₀ sched).callers.get? i₁ = some k₁ →
      (Conc.exec c₀ sched).callers.get? i₂ = some k₂ →
      k₁.pc.isCompute = true → k₂.pc.isCompute = true → i₁ = i₂) ∧
    (∀ sched : List Conc.Act,
      (Conc.exec c₀ sched).allFinished = true →
      (Conc.exec c₀ sched).calls = c₀.calls + 1 ∧
      ∃ w, (Conc.exec c₀ sched).callers.get? w =
          some ⟨.finished (c₀.refreshFn c₀.calls), c₀.cur⟩ ∧
        ∀ i k, i ≠ w → (Conc.exec c₀ sched).callers.get? i = some k →
          k = ⟨.finished (Conc.stalePair c₀), c₀.cur⟩) := by
  refine ⟨fun sched => ?_, fun sched i₁ i₂ k₁ k₂ h1 h2 hc1 hc2 => ?_,
    fun sched hfin => ?_⟩
  · rcases (staleInv_exec c₀ h₀ sched).2.2 with
      ⟨_, _, hcalls, _⟩ | ⟨w, _, _, _, hcalls, _⟩ | ⟨w, t, _, _, _, hcalls, _⟩
    · omega
    · omega
    · omega
  · rcases (staleInv_exec c₀ h₀ sched).2.2 with
      ⟨_, _, _, hall⟩ | ⟨w, hw, _, _, _, hoth⟩ | ⟨w, t, hw, _, _, _, hoth⟩
    · have := hall _ (List.get?_mem h1)
      subst this
      simp [Conc.PC.isCompute] at hc1
    · by_cases hw1 : i₁ = w
      · by_cases hw2 : i₂ = w
        · omega
        · rcases hoth i₂ k₂ hw2 h2 with hk | hk <;> subst hk <;>
            simp [Conc.PC.isCompute] at hc2
      · rcases hoth i₁ k₁ hw1 h1 with hk | hk <;> subst hk <;>
          simp [Conc.PC.isCompute] at hc1
    · by_cases hw1 : i₁ = w
      · subst hw1
        rw [h1] at hw
        have := Option.some.inj hw
        subst this
        simp [Conc.PC.isCompute] at hc1
      · rcases hoth i₁ k₁ hw1 h1 with hk | hk <;> subst hk <;>
          simp [Conc.PC.isCompute] at hc1
  · have hfin' : ∀ k ∈ (Conc.exec c₀ sched).callers,
        k.pc.isFinished = true := by
      intro k hk
      exact List.all_eq_true.mp hfin k hk
    obtain ⟨hlt, hflag0, hpos, hall₀⟩ := h₀
    obtain ⟨hfn, hlen, hphase⟩ := staleInv_exec c₀ ⟨hlt, hflag0, hpos, hall₀⟩ sched
    rcases hphase with ⟨_, _, _, hall⟩ | ⟨w, hw, _, _, _, hoth⟩ |
      ⟨w, t, hw, hheap, hcur, hcalls, hoth⟩
    · exfalso
      rcases List.exists_mem_of_ne_nil _
          (List.length_pos.mp (hlen ▸ hpos)) with ⟨x, hx⟩
      have hxx := hall _ hx
      subst hxx
      have := hfin' _ hx
      simp [Conc.PC.isFinished] at this
    · exfalso
      have := hfin' _ (List.get?_mem hw)
      simp [Conc.PC.isFinished] at this
    · refine ⟨hcalls, w, hw, fun i k hne hget => ?_⟩
      rcases hoth i k hne hget with hk | hk
      · exfalso
        have := hfin' _ (List.get?_mem hget)
        subst hk
        simp [Conc.PC.isFinished] at this
      · exact hk

/-- Witness for `staleWhileRefresh_episode`: the three-caller episode
`Conc.exStaleCfg` under schedule `Conc.exStaleSched` — every caller
returns, `computeFn` ran once, one caller holds the new pair and the
other two the stale pair. -/
theorem staleWhileRefresh_episode_witness :
    (Conc.exec Conc.exStaleCfg Conc.exStaleSched).calls =
      Conc.exStaleCfg.calls + 1 ∧
    ∃ w, (Conc.exec Conc.exStaleCfg Conc.exStaleSched).callers.get? w =
        some ⟨.finished (Conc.exStaleCfg.refreshFn Conc.exStaleCfg.calls),
          Conc.exStaleCfg.cur⟩ ∧
      ∀ i k, i ≠ w →
        (Conc.exec Conc.exStaleCfg Conc.exStaleSched).callers.get? i =
          some k →
        k = ⟨.finished (Conc.stalePair Conc.exStaleCfg),
          Conc.exStaleCfg.cur⟩ :=
  (staleWhileRefresh_episode Nat Nat Conc.exStaleCfg (by decide)).2.2
    Conc.exStaleSched (by decide)

/-- Reading the episode's snapshot with its Once in state `st`. -/
theorem getD_freshHeap {V E : Type} [Inhabited V] (c₀ : Conc.Config V E)
    (st : Nat) (hlt : c₀.cur < c₀.heap.length) :
    (Conc.freshHeap c₀ st).getD c₀.cur default =
      { c₀.heap.getD c₀.cur default with refresh := st } := by
  unfold Conc.freshHeap
  rw [List.getD_eq_getD_get?, List.get?_set_eq_of_lt _ hlt]
  rfl

/-- The invariant of a blocking episode holds initially. -/
theorem freshInv_init {V E : Type} [Inhabited V] (c₀ : Conc.Config V E)
    (h : Conc.freshInit c₀) : Conc.freshInv c₀ c₀ := by
  obtain ⟨_, _, _, hall⟩ := h
  exact ⟨rfl, rfl, Or.inl ⟨rfl, rfl, rfl, hall⟩⟩

/-- The invariant of a blocking episode is preserved by every action. -/
theorem freshInv_step {V E : Type} [Inhabited V] (c₀ c : Conc.Config V E)
    (h₀ : Conc.freshInit c₀) (hinv : Conc.freshInv c₀ c) (a : Conc.Act) :
    Conc.freshInv c₀ (Conc.step c a) := by
  obtain ⟨hlt, honce0, hpos, hall₀⟩ := h₀
  obtain ⟨hfn, hlen, hphase⟩ := hinv
  cases a with
  | tick d => exact ⟨hfn, hlen, hphase⟩
  | run i =>
    show Conc.freshInv c₀ (Conc.stepCaller c i)
    rcases hget : c.callers.get? i with _ | caller
    · rw [stepCaller_none c i hget]
      exact ⟨hfn, hlen, hphase⟩
    · rcases hphase with ⟨hheap, hcur, hcalls, hall⟩ |
        ⟨w, hw, hheap, hcur, hcalls, hoth⟩ |
        ⟨w, t, hw, hheap, hcur, hcalls, hoth⟩ |
        ⟨t, hheap, hcur, hcalls, hall3⟩
      · -- phase 0: the acting caller enters the Once and wins
        have hcaller : caller = ⟨.freshOnce, c₀.cur⟩ :=
          hall _ (List.get?_mem hget)
        subst hcaller
        have honce : (c.heap.getD c₀.cur default).refresh = 0 := by
          rw [hheap]
          exact honce0
        have hstep := stepCaller_freshOnce_enter c i c₀.cur hget honce
        rw [hstep]
        refine ⟨hfn, by simpa using hlen,
          Or.inr (Or.inl ⟨i, ?_, ?_, ?_, ?_, ?_⟩)⟩
        · dsimp only
          rw [hcalls]
          exact List.get?_set_eq_of_lt _ (get?_lt_length hget)
        · dsimp only
          rw [hheap]
          rfl
        · exact hcur
        · dsimp only
          rw [hcalls]
        · intro i' k hne hget'
          dsimp only at hget'
          rw [List.get?_set_ne _ _ (Ne.symm hne)] at hget'
          exact hall _ (List.get?_mem hget')
      · -- phase 1: the winner computes and publishes, the rest are parked
        by_cases hiw : i = w
        · subst hiw
          rw [hget] at hw
          have hcaller : caller = ⟨.freshCompute c₀.calls, c₀.cur⟩ :=
            Option.some.inj hw
          subst hcaller
          have hstep := stepCaller_freshCompute c i c₀.cur c₀.calls hget
          rw [hstep]
          refine ⟨hfn, by simpa using hlen,
            Or.inr (Or.inr (Or.inl ⟨i, c.time, ?_, ?_, ?_, ?_, ?_⟩))⟩
          · dsimp only
            exact List.get?_set_eq_of_lt _ (get?_lt_length hget)
          · dsimp only
            rw [hheap, hfn]
            rfl
          · dsimp only
            rw [hheap]
            simp [Conc.freshHeap]
          · exact hcalls
          · intro i' k hne hget'
            dsimp only at hget'
            rw [List.get?_set_ne _ _ (Ne.symm hne)] at hget'
            exact hoth i' k hne hget'
        · have hcaller := hoth i caller hiw hget
          subst hcaller
          have honce : (c.heap.getD c₀.cur default).refresh = 1 := by
            rw [hheap, getD_freshHeap c₀ 1 hlt]
          rw [stepCaller_freshOnce_blocked c i c₀.cur hget honce]
          exact ⟨hfn, hlen, Or.inr (Or.inl ⟨w, hw, hheap, hcur, hcalls, hoth⟩)⟩
      · -- phase 2: the winner marks the Once done, the rest stay parked
        by_cases hiw : i = w
        · subst hiw
          rw [hget] at hw
          have hcaller : caller = ⟨.freshSetDone, c₀.cur⟩ :=
            Option.some.inj hw
          subst hcaller
          have hstep := stepCaller_freshSetDone c i c₀.cur hget
          rw [hstep]
          refine ⟨hfn, by simpa using hlen,
            Or.inr (Or.inr (Or.inr ⟨t, ?_, ?_, ?_, ?_⟩))⟩
          · dsimp only
            rw [hheap,
              getD_append_left (Conc.freshHeap c₀ 1) _ c₀.cur
                (by simpa [Conc.freshHeap] using hlt),
              getD_freshHeap c₀ 1 hlt]
            rw [List.set_append_left _ _
                (by simpa [Conc.freshHeap] using hlt)]
            unfold Conc.freshHeap
            rw [List.set_set]
          · dsimp only
            exact hcur
          · exact hcalls
          · intro i' k hget'
            dsimp only at hget'
            by_cases hii : i = i'
            · subst hii
              rw [List.get?_set_eq_of_lt _ (get?_lt_length hget)] at hget'
              cases Option.some.inj hget'
              exact ⟨rfl, Or.inr (Or.inl rfl)⟩
            · rw [List.get?_set_ne _ _ hii] at hget'
              have := hoth i' k (by omega) hget'
              subst this
              exact ⟨rfl, Or.inl rfl⟩
        · have hcaller := hoth i caller hiw hget
          subst hcaller
          have honce : (c.heap.getD c₀.cur default).refresh = 1 := by
            rw [hheap,
              getD_append_left (Conc.freshHeap c₀ 1) _ c₀.cur
                (by simpa [Conc.freshHeap] using hlt),
              getD_freshHeap c₀ 1 hlt]
          rw [stepCaller_freshOnce_blocked c i c₀.cur hget honce]
          exact ⟨hfn, hlen,
            Or.inr (Or.inr (Or.inl ⟨w, t, hw, hheap, hcur, hcalls, hoth⟩))⟩
      · -- phase 3: everyone drains through the done Once and the re-read
        obtain ⟨hcap, hpc⟩ := hall3 i caller hget
        obtain ⟨pc, cap⟩ := caller
        dsimp only at hcap hpc
        subst hcap
        rcases hpc with hpc | hpc | hpc
        · subst hpc
          have honce : (c.heap.getD c₀.cur default).refresh = 2 := by
            rw [hheap,
              getD_append_left (Conc.freshHeap c₀ 2) _ c₀.cur
                (by simpa [Conc.freshHeap] using hlt),
              getD_freshHeap c₀ 2 hlt]
          rw [stepCaller_freshOnce_done c i c₀.cur hget honce]
          refine ⟨hfn, by simpa [Conc.Config.setCaller] using hlen,
            Or.inr (Or.inr (Or.inr ⟨t, hheap, hcur, hcalls, ?_⟩))⟩
          intro i' k hget'
          unfold Conc.Config.setCaller at hget'
          dsimp only at hget'
          by_cases hii : i = i'
          · subst hii
            rw [List.get?_set_eq_of_lt _ (get?_lt_length hget)] at hget'
            cases Option.some.inj hget'
            exact ⟨rfl, Or.inr (Or.inl rfl)⟩
          · rw [List.get?_set_ne _ _ hii] at hget'
            exact hall3 i' k hget'
        · subst hpc
          have hread : c.heap.getD c.cur default = Conc.newSnap c₀ t := by
            rw [hheap, hcur]
            have hlen1 : (Conc.freshHeap c₀ 2).length = c₀.heap.length := by
              simp [Conc.freshHeap]
            rw [← hlen1]
            exact getD_append_last _ _
          rw [stepCaller_freshReread c i c₀.cur hget]
          refine ⟨hfn, by simpa [Conc.Config.setCaller] using hlen,
            Or.inr (Or.inr (Or.inr ⟨t, hheap, hcur, hcalls, ?_⟩))⟩
          intro i' k hget'
          unfold Conc.Config.setCaller at hget'
          dsimp only at hget'
          by_cases hii : i = i'
          · subst hii
            rw [List.get?_set_eq_of_lt _ (get?_lt_length hget)] at hget'
            cases Option.some.inj hget'
            refine ⟨rfl, Or.inr (Or.inr ?_)⟩
            rw [hread]
            rfl
          · rw [List.get?_set_ne _ _ hii] at hget'
            exact hall3 i' k hget'
        · obtain ⟨res, hres⟩ : ∃ res, pc = Conc.PC.finished res :=
            ⟨_, hpc⟩
          subst hres
          rw [stepCaller_finished c i c₀.cur _ hget]
          exact ⟨hfn, hlen, Or.inr (Or.inr (Or.inr ⟨t, hheap, hcur, hcalls, hall3⟩))⟩

/-- The invariant of a blocking episode holds along every schedule. -/
theorem freshInv_exec {V E : Type} [Inhabited V] (c₀ : Conc.Config V E)
    (h₀ : Conc.freshInit c₀) (sched : List Conc.Act) :
    Conc.freshInv c₀ (Conc.exec c₀ sched) := by
  suffices h : ∀ (c : Conc.Config V E), Conc.freshInv c₀ c →
      Conc.freshInv c₀ (Conc.exec c sched) from
    h c₀ (freshInv_init c₀ h₀)
  induction sched with
  | nil => exact fun c hc => hc
  | cons a rest ih =>
    intro c hc
    exact ih _ (freshInv_step c₀ c h₀ hc a)

/-- C2: a whole blocking staleness episode.  From any state in which
N ≥ 1 concurrent callers have all observed the same stale snapshot (they
sit at the entry of its run-once gate, still unused), along every
interleaving `computeFn` is started at most once; and once every caller
has returned: `computeFn` was executed exactly once, the snapshot built
from its output `(value, error, now)` was atomically published as
current (it sits at the end of the heap and `cur` points to it), and
every caller — winner and losers alike — returned that freshly computed
pair obtained by re-reading `current`, not the stale pair it had
observed. -/
theorem blocking_episode (V E : Type) [Inhabited V]
    (c₀ : Conc.Config V E) (h₀ : Conc.freshInit c₀) :
    (∀ sched : List Conc.Act,
      (Conc.exec c₀ sched).calls ≤ c₀.calls + 1) ∧
    (∀ sched : List Conc.Act,
      (Conc.exec c₀ sched).allFinished = true →
      (Conc.exec c₀ sched).calls = c₀.calls + 1 ∧
      (Conc.exec c₀ sched).cur = c₀.heap.length ∧
      (∃ t, (Conc.exec c₀ sched).heap.get? (Conc.exec c₀ sched).cur =
        some ⟨(c₀.refreshFn c₀.calls).1, (c₀.refreshFn c₀.calls).2,
          t, 0, 0⟩) ∧
      ∀ i k, (Conc.exec c₀ sched).callers.get? i = some k →
        k = ⟨.finished (c₀.refreshFn c₀.calls), c₀.cur⟩) := by
  refine ⟨fun sched => ?_, fun sched hfin => ?_⟩
  · rcases (freshInv_exec c₀ h₀ sched).2.2 with
      ⟨_, _, hcalls, _⟩ | ⟨w, _, _, _, hcalls, _⟩ |
      ⟨w, t, _, _, _, hcalls, _⟩ | ⟨t, _, _, hcalls, _⟩
    · omega
    · omega
    · omega
    · omega
  · have hfin' : ∀ k ∈ (Conc.exec c₀ sched).callers,
        k.pc.isFinished = true := by
      intro k hk
      exact List.all_eq_true.mp hfin k hk
    obtain ⟨hlt, honce0, hpos, hall₀⟩ := h₀
    obtain ⟨hfn, hlen, hphase⟩ :=
      freshInv_exec c₀ ⟨hlt, honce0, hpos, hall₀⟩ sched
    rcases hphase with ⟨_, _, _, hall⟩ | ⟨w, hw, _, _, _, _⟩ |
      ⟨w, t, hw, _, _, _, _⟩ | ⟨t, hheap, hcur, hcalls, hall3⟩
    · exfalso
      rcases List.exists_mem_of_ne_nil _
          (List.length_pos.mp (hlen ▸ hpos)) with ⟨x, hx⟩
      have hxx := hall _ hx
      subst hxx
      have := hfin' _ hx
      simp [Conc.PC.isFinished] at this
    · exfalso
      have := hfin' _ (List.get?_mem hw)
      simp [Conc.PC.isFinished] at this
    · exfalso
      have := hfin' _ (List.get?_mem hw)
      simp [Conc.PC.isFinished] at this
    · refine ⟨hcalls, hcur, ⟨t, ?_⟩, fun i k hget => ?_⟩
      · rw [hheap, hcur]
        have hlen2 : (Conc.freshHeap c₀ 2).length = c₀.heap.length := by
          simp [Conc.freshHeap]
        rw [← hlen2]
        exact List.get?_concat_length _ _
      · obtain ⟨hcap, hpc⟩ := hall3 i k hget
        obtain ⟨pc, cap⟩ := k
        dsimp only at hcap hpc
        subst hcap
        rcases hpc with hpc | hpc | hpc
        · exfalso
          subst hpc
          have := hfin' _ (List.get?_mem hget)
          simp [Conc.PC.isFinished] at this
        · exfalso
          subst hpc
          have := hfin' _ (List.get?_mem hget)
          simp [Conc.PC.isFinished] at this
        · subst hpc
          rfl

/-- Witness for `blocking_episode`: the three-caller blocking episode
`Conc.exFreshCfg` under schedule `Conc.exFreshSched` — `computeFn` ran
once, its output was published as current, and all three callers
returned that freshly computed pair. -/
theorem blocking_episode_witness :
    (Conc.exec Conc.exFreshCfg Conc.exFreshSched).calls =
      Conc.exFreshCfg.calls + 1 ∧
    (Conc.exec Conc.exFreshCfg Conc.exFreshSched).cur =
      Conc.exFreshCfg.heap.length ∧
    (∃ t, (Conc.exec Conc.exFreshCfg Conc.exFreshSched).heap.get?
        (Conc.exec Conc.exFreshCfg Conc.exFreshSched).cur =
      some ⟨(Conc.exFreshCfg.refreshFn Conc.exFreshCfg.calls).1,
        (Conc.exFreshCfg.refreshFn Conc.exFreshCfg.calls).2, t, 0, 0⟩) ∧
    ∀ i k, (Conc.exec Conc.exFreshCfg Conc.exFreshSched).callers.get? i =
        some k →
      k = ⟨.finished (Conc.exFreshCfg.refreshFn Conc.exFreshCfg.calls),
        Conc.exFreshCfg.cur⟩ :=
  (blocking_episode Nat Nat Conc.exFreshCfg (by decide)).2
    Conc.exFreshSched (by decide)
